import Mathlib

/-!
# Verification of the AssistSupport hybrid-search retrieval core

Shallow embedding, in Lean 4, of the retrieval pipeline of the
AssistSupport search API: score fusion (`score_fusion.py`), the feedback
quality loop (`feedback_loop.py`), intent detection
(`intent_detection.py`), the coordinator post-adjustment stages,
deduplication and error handling (`hybrid_search.py`), and the
cross-encoder reranker blend (`reranker.py`).

Modelling conventions:
* Python floats are modelled as rationals (`ℚ`); none of the verified
  properties depends on floating-point rounding.
* Python's stable `sorted(key=..., reverse=True)` is modelled by
  `List.insertionSort` with the reflexive relation "left score ≥ right
  score", which is a stable descending sort.
* Python dicts keyed by article id are modelled as association lists
  that update in place (preserving key position) and append new keys,
  which is exactly CPython's dict-ordering behaviour.
* Database lookups (`SELECT ... WHERE id IN (...)`) are modelled by a
  `Store` of lookup functions; a `none` result models a missing row.
* `try/except` blocks that swallow store errors are modelled by total
  functions over an `Except` outcome of the store call.
-/

namespace AssistSupport

/-- One fused search result: `(article_id, score)`. -/
abbrev Result := String × ℚ

/-- Python's `sorted(xs, key=f, reverse=True)`: a stable sort by
descending `f`-value.  `insertionSort` with a reflexive "≥ on scores"
relation is stable, like CPython's sort. -/
def sortByDesc {α : Type} (f : α → ℚ) (l : List α) : List α :=
  List.insertionSort (fun a b => f b ≤ f a) l

theorem sortByDesc_perm {α : Type} (f : α → ℚ) (l : List α) :
    List.Perm (sortByDesc f l) l :=
  List.perm_insertionSort _ l

theorem sortByDesc_sorted {α : Type} (f : α → ℚ) (l : List α) :
    (sortByDesc f l).Pairwise (fun a b => f b ≤ f a) := by
  have htot : IsTotal α (fun a b => f b ≤ f a) := ⟨fun a b => le_total (f b) (f a)⟩
  have htr : IsTrans α (fun a b => f b ≤ f a) := ⟨fun _ _ _ h1 h2 => le_trans h2 h1⟩
  exact List.sorted_insertionSort _ l

/-- Python's `max(xs)` for a nonempty list of numbers (0 on `[]`,
which the sources never reach). -/
def listMax (l : List ℚ) : ℚ :=
  match l with
  | [] => 0
  | x :: rest => rest.foldl max x

/-- Python's `min(xs)` for a nonempty list of numbers (0 on `[]`,
which the sources never reach). -/
def listMin (l : List ℚ) : ℚ :=
  match l with
  | [] => 0
  | x :: rest => rest.foldl min x

end AssistSupport

namespace AssistSupport.ScoreFusion

/-- Association-list lookup with default 0: `scores.get(id, 0)`. -/
def dictGet (d : List Result) (id : String) : ℚ :=
  match d with
  | [] => 0
  | (k, v) :: rest => if k = id then v else dictGet rest id

/-- `scores[id] = scores.get(id, 0) + v` on a Python dict: add to an
existing key in place, or append the new key. -/
def dictAdd : List Result → String → ℚ → List Result
  | [], k, v => [(k, v)]
  | (k', v') :: rest, k, v =>
      if k' = k then (k', v' + v) :: rest else (k', v') :: dictAdd rest k v

/-- `scores[id] = v` on a Python dict: overwrite an existing key in
place, or append the new key (dict-comprehension semantics). -/
def dictSet : List Result → String → ℚ → List Result
  | [], k, v => [(k, v)]
  | (k', v') :: rest, k, v =>
      if k' = k then (k', v) :: rest else (k', v') :: dictSet rest k v

/-- The RRF accumulation loop
`for rank, (article_id, _) in enumerate(results, rank):
   scores[article_id] = scores.get(article_id, 0) + 1.0 / (k + rank)`. -/
def rrfAccum (k : ℚ) : List Result → ℕ → List Result → List Result
  | [], _, scores => scores
  | (id, _) :: rest, rank, scores =>
      rrfAccum k rest (rank + 1) (dictAdd scores id (1 / (k + (rank : ℚ))))

/-- `ScoreFusion.reciprocal_rank_fusion` from `score_fusion.py`:
accumulate `1/(k + rank)` per list (ranks starting at 1, BM25 list
first), then sort the dict items by descending score. -/
def reciprocalRankFusion (bm25Results vectorResults : List Result) (k : ℚ) :
    List Result :=
  sortByDesc Prod.snd (rrfAccum k vectorResults 1 (rrfAccum k bm25Results 1 []))

/-- Dict comprehension `{id: f(score) for id, score in l}`. -/
def buildDict (f : ℚ → ℚ) (l : List Result) : List Result :=
  l.foldl (fun d p => dictSet d p.1 (f p.2)) []

/-- First-occurrence deduplication of a key list; determinizes the
iteration order of the Python set union `set(b) | set(v)` (the claims
proved below do not depend on that order). -/
def dedupKeysAux (seen : List String) : List String → List String
  | [] => []
  | x :: rest =>
      if x ∈ seen then dedupKeysAux seen rest
      else x :: dedupKeysAux (x :: seen) rest

def dedupKeys (l : List String) : List String := dedupKeysAux [] l

/-- `ScoreFusion.weighted_combination` from `score_fusion.py`.
Keyword scores are divided by `max(bm25_max, 0.01)` and capped above by
1 (`min(1.0, score / max(bm25_max, 0.01))` — note: no cap below).
Vector scores are clipped to `[0, 1]`.  Ids missing on one side
contribute 0 there.  Defaults in the source: `bm25_weight = 0.3`,
`vector_weight = 0.6`. -/
def weightedCombination (bm25Results vectorResults : List Result)
    (bm25Weight vectorWeight : ℚ) : List Result :=
  let bm25Dict : List Result :=
    match bm25Results with
    | [] => []
    | _ :: _ =>
        let bm25Max := listMax (bm25Results.map Prod.snd)
        buildDict (fun s => min 1 (s / max bm25Max (1 / 100))) bm25Results
  let vectorDict : List Result :=
    match vectorResults with
    | [] => []
    | _ :: _ => buildDict (fun s => min 1 (max 0 s)) vectorResults
  let allIds := dedupKeys (bm25Dict.map Prod.fst ++ vectorDict.map Prod.fst)
  let combined := allIds.map fun id =>
    (id, bm25Weight * dictGet bm25Dict id + vectorWeight * dictGet vectorDict id)
  sortByDesc Prod.snd combined

/-- The per-intent weight table of `ScoreFusion.adaptive_fusion`,
including the `weights.get(query_type, weights["unknown"])` fallback. -/
def adaptiveWeights (queryType : String) : ℚ × ℚ :=
  if queryType = "policy" then (7/20, 13/20)
  else if queryType = "procedure" then (2/5, 3/5)
  else if queryType = "reference" then (1/5, 4/5)
  else if queryType = "unknown" then (3/10, 7/10)
  else (3/10, 7/10)

/-- `ScoreFusion.adaptive_fusion` from `score_fusion.py`. -/
def adaptiveFusion (bm25Results vectorResults : List Result)
    (queryType : String) : List Result :=
  let w := adaptiveWeights queryType
  weightedCombination bm25Results vectorResults w.1 w.2

/-- Rank-position sum: the total RRF mass an id collects from one
list, `Σ 1/(k + rank)` over all positions holding that id, with ranks
counted from `rank`. -/
def rankSumFrom (k : ℚ) (x : String) : List Result → ℕ → ℚ
  | [], _ => 0
  | (id, _) :: rest, rank =>
      (if x = id then 1 / (k + (rank : ℚ)) else 0) + rankSumFrom k x rest (rank + 1)

/-- `1/(k + rank)` at the first occurrence of `x` (ranks counted from
`rank`), 0 when `x` does not occur: the spec's per-list RRF term. -/
def rankContribution (k : ℚ) (x : String) : List Result → ℕ → ℚ
  | [], _ => 0
  | (id, _) :: rest, rank =>
      if id = x then 1 / (k + (rank : ℚ)) else rankContribution k x rest (rank + 1)

theorem dictGet_dictAdd :
    ∀ (d : List Result) (k : String) (v : ℚ) (x : String),
      dictGet (dictAdd d k v) x = dictGet d x + (if x = k then v else 0)
  | [], k, v, x => by
      by_cases h : x = k
      · subst h; simp [dictAdd, dictGet]
      · have h' : ¬ k = x := fun hh => h hh.symm
        simp [dictAdd, dictGet, h, h']
  | (k', v') :: rest, k, v, x => by
      by_cases hk : k' = k
      · subst hk
        by_cases hx : k' = x
        · subst hx; simp [dictAdd, dictGet]
        · have hx' : ¬ x = k' := fun hh => hx hh.symm
          simp [dictAdd, dictGet, hx, hx']
      · by_cases hx : k' = x
        · subst hx
          simp [dictAdd, dictGet, hk]
        · simp [dictAdd, dictGet, hk, hx, dictGet_dictAdd rest k v x]

theorem mem_keys_dictAdd :
    ∀ (d : List Result) (k : String) (v : ℚ) (x : String),
      x ∈ (dictAdd d k v).map Prod.fst ↔ x ∈ d.map Prod.fst ∨ x = k
  | [], k, v, x => by simp [dictAdd]
  | (k', v') :: rest, k, v, x => by
      by_cases hk : k' = k
      · subst hk; simp [dictAdd]; tauto
      · simp [dictAdd, hk, mem_keys_dictAdd rest k v x]; tauto

theorem nodup_keys_dictAdd :
    ∀ (d : List Result) (k : String) (v : ℚ),
      (d.map Prod.fst).Nodup → ((dictAdd d k v).map Prod.fst).Nodup
  | [], k, v, _ => by simp [dictAdd]
  | (k', v') :: rest, k, v, h => by
      have h' := h
      rw [List.map_cons, List.nodup_cons] at h'
      obtain ⟨hk', hrest⟩ := h'
      by_cases hk : k' = k
      · subst hk; simpa [dictAdd] using h
      · have : ¬ k' ∈ (dictAdd rest k v).map Prod.fst := by
          rw [mem_keys_dictAdd]
          rintro (h1 | h1)
          · exact hk' h1
          · exact hk h1
        simpa [dictAdd, hk, this] using nodup_keys_dictAdd rest k v hrest

theorem dictGet_rrfAccum (k : ℚ) :
    ∀ (l : List Result) (rank : ℕ) (d : List Result) (x : String),
      dictGet (rrfAccum k l rank d) x = dictGet d x + rankSumFrom k x l rank
  | [], rank, d, x => by simp [rrfAccum, rankSumFrom]
  | (id, s) :: rest, rank, d, x => by
      rw [rrfAccum, dictGet_rrfAccum k rest (rank + 1) _ x, dictGet_dictAdd]
      simp [rankSumFrom]
      ring

theorem mem_keys_rrfAccum (k : ℚ) :
    ∀ (l : List Result) (rank : ℕ) (d : List Result) (x : String),
      x ∈ (rrfAccum k l rank d).map Prod.fst ↔
        x ∈ d.map Prod.fst ∨ x ∈ l.map Prod.fst
  | [], rank, d, x => by simp [rrfAccum]
  | (id, s) :: rest, rank, d, x => by
      rw [rrfAccum, mem_keys_rrfAccum k rest (rank + 1) _ x, mem_keys_dictAdd]
      simp
      tauto

theorem nodup_keys_rrfAccum (k : ℚ) :
    ∀ (l : List Result) (rank : ℕ) (d : List Result),
      (d.map Prod.fst).Nodup → ((rrfAccum k l rank d).map Prod.fst).Nodup
  | [], rank, d, h => h
  | (id, s) :: rest, rank, d, h =>
      nodup_keys_rrfAccum k rest (rank + 1) _ (nodup_keys_dictAdd d id _ h)

theorem snd_eq_dictGet :
    ∀ (d : List Result), (d.map Prod.fst).Nodup → ∀ p ∈ d, p.2 = dictGet d p.1
  | [], _, p, hp => by cases hp
  | (k', v') :: rest, h, p, hp => by
      have h' := h
      rw [List.map_cons, List.nodup_cons] at h'
      obtain ⟨hk', hrest⟩ := h'
      rcases List.mem_cons.1 hp with hp | hp
      · subst hp; simp [dictGet]
      · have hne : ¬ k' = p.1 := by
          intro hh
          exact hk' (hh ▸ (List.mem_map.2 ⟨p, hp, rfl⟩))
        simpa [dictGet, hne] using snd_eq_dictGet rest hrest p hp

theorem rankSumFrom_eq_zero (k : ℚ) (x : String) :
    ∀ (l : List Result) (rank : ℕ), x ∉ l.map Prod.fst →
      rankSumFrom k x l rank = 0
  | [], _, _ => rfl
  | (id, s) :: rest, rank, h => by
      have h1 : ¬ x = id := fun hh => h (by simp [hh])
      have h2 : x ∉ rest.map Prod.fst := fun hh => h (by simp [hh])
      simp [rankSumFrom, h1, rankSumFrom_eq_zero k x rest (rank + 1) h2]

theorem rankSumFrom_eq_rankContribution (k : ℚ) (x : String) :
    ∀ (l : List Result), (l.map Prod.fst).Nodup → ∀ (rank : ℕ),
      rankSumFrom k x l rank = rankContribution k x l rank
  | [], _, _ => rfl
  | (id, s) :: rest, h, rank => by
      have h' := h
      rw [List.map_cons, List.nodup_cons] at h'
      obtain ⟨hid, hrest⟩ := h'
      by_cases hx : id = x
      · subst hx
        have : rankSumFrom k id rest (rank + 1) = 0 :=
          rankSumFrom_eq_zero k id rest (rank + 1) hid
        simp [rankSumFrom, rankContribution, this]
      · have hx' : ¬ x = id := fun hh => hx hh.symm
        simp [rankSumFrom, rankContribution, hx, hx',
          rankSumFrom_eq_rankContribution k x rest hrest (rank + 1)]

end AssistSupport.ScoreFusion

namespace AssistSupport.ScoreFusion

/-- C1: the failing input from the repository's own property test
`test_weighted_combination_handles_negative_bm25_scores` (which asserts
all output scores are `≥ 0`).  With `B = [("doc-a", -10), ("doc-b", -1)]`
and `V = []`, `bm25_max = -1` is floored to `1/100`, so the normalized
keyword scores are `-1000` and `-100` and the combined scores are
`-300` and `-30` — far outside `[0, 1]`. -/
theorem weightedCombination_negative_scores_escape :
    weightedCombination [("doc-a", -10), ("doc-b", -1)] [] (3/10) (3/5)
        = [("doc-b", -30), ("doc-a", -300)]
      ∧ ¬ ((0 : ℚ) ≤ -300 ∧ (-300 : ℚ) ≤ 1) := by
  constructor
  · simp [weightedCombination, buildDict, dictSet, dictGet, dedupKeys,
      dedupKeysAux, listMax, sortByDesc, List.insertionSort, List.orderedInsert]
    norm_num
  · norm_num

/-- C4 (amended): for keyword/vector lists with per-list unique ids,
`reciprocal_rank_fusion` with `k = 60` assigns each output id the score
`Σ 1/(60 + rank_i)` over the lists in which it appears (rank starting
at 1), has no duplicate ids, only ids drawn from the two inputs, and is
sorted by non-increasing (weakly descending) score. -/
theorem reciprocalRankFusion_spec (B V : List Result)
    (hB : (B.map Prod.fst).Nodup) (hV : (V.map Prod.fst).Nodup) :
    (∀ p ∈ reciprocalRankFusion B V 60,
        p.2 = rankContribution 60 p.1 B 1 + rankContribution 60 p.1 V 1)
      ∧ ((reciprocalRankFusion B V 60).map Prod.fst).Nodup
      ∧ (∀ x ∈ (reciprocalRankFusion B V 60).map Prod.fst,
          x ∈ B.map Prod.fst ∨ x ∈ V.map Prod.fst)
      ∧ (reciprocalRankFusion B V 60).Pairwise (fun p q => q.2 ≤ p.2) := by
  have hndB : ((rrfAccum 60 B 1 []).map Prod.fst).Nodup :=
    nodup_keys_rrfAccum 60 B 1 [] (by simp)
  have hnd : ((rrfAccum 60 V 1 (rrfAccum 60 B 1 [])).map Prod.fst).Nodup :=
    nodup_keys_rrfAccum 60 V 1 _ hndB
  have hperm :
      List.Perm (reciprocalRankFusion B V 60) (rrfAccum 60 V 1 (rrfAccum 60 B 1 [])) :=
    sortByDesc_perm _ _
  refine ⟨?_, ?_, ?_, ?_⟩
  · intro p hp
    have hp' : p ∈ rrfAccum 60 V 1 (rrfAccum 60 B 1 []) := hperm.mem_iff.1 hp
    have hval := snd_eq_dictGet _ hnd p hp'
    rw [hval, dictGet_rrfAccum, dictGet_rrfAccum]
    simp [dictGet]
    rw [rankSumFrom_eq_rankContribution 60 p.1 B hB 1,
      rankSumFrom_eq_rankContribution 60 p.1 V hV 1]
  · have : List.Perm ((reciprocalRankFusion B V 60).map Prod.fst)
        ((rrfAccum 60 V 1 (rrfAccum 60 B 1 [])).map Prod.fst) := hperm.map _
    exact this.nodup_iff.2 hnd
  · intro x hx
    have : List.Perm ((reciprocalRankFusion B V 60).map Prod.fst)
        ((rrfAccum 60 V 1 (rrfAccum 60 B 1 [])).map Prod.fst) := hperm.map _
    have hx' := this.mem_iff.1 hx
    rw [mem_keys_rrfAccum, mem_keys_rrfAccum] at hx'
    simpa using hx'
  · exact sortByDesc_sorted _ _

/-- C4 witness: the amended RRF statement instantiated at
`B = [("a", 1), ("c", 2)]`, `V = [("a", 1)]`. -/
theorem reciprocalRankFusion_spec_witness :
    (((([("a", (1:ℚ)), ("c", 2)] : List Result).map Prod.fst).Nodup
        ∧ (([("a", (1:ℚ))] : List Result).map Prod.fst).Nodup))
      ∧ ((∀ p ∈ reciprocalRankFusion [("a", 1), ("c", 2)] [("a", 1)] 60,
            p.2 = rankContribution 60 p.1 [("a", 1), ("c", 2)] 1
              + rankContribution 60 p.1 [("a", 1)] 1)
          ∧ ((reciprocalRankFusion [("a", 1), ("c", 2)] [("a", 1)] 60).map Prod.fst).Nodup
          ∧ (∀ x ∈ (reciprocalRankFusion [("a", 1), ("c", 2)] [("a", 1)] 60).map Prod.fst,
              x ∈ ([("a", (1:ℚ)), ("c", 2)] : List Result).map Prod.fst
                ∨ x ∈ ([("a", (1:ℚ))] : List Result).map Prod.fst)
          ∧ (reciprocalRankFusion [("a", 1), ("c", 2)] [("a", 1)] 60).Pairwise
              (fun p q => q.2 ≤ p.2)) :=
  ⟨⟨by decide, by decide⟩,
    reciprocalRankFusion_spec [("a", 1), ("c", 2)] [("a", 1)] (by decide) (by decide)⟩

/-- C4 counterexample to the claim as stated: with `B = [("a", 1)]` and
`V = [("b", 1)]` both articles receive the same score `1/61`, so the
output is not *strictly* descending. -/
theorem reciprocalRankFusion_not_strict :
    reciprocalRankFusion [("a", 1)] [("b", 1)] 60 = [("a", 1/61), ("b", 1/61)]
      ∧ ¬ (reciprocalRankFusion [("a", 1)] [("b", 1)] 60).Pairwise
            (fun p q => q.2 < p.2) := by
  have h : reciprocalRankFusion [("a", 1)] [("b", 1)] 60
      = [("a", 1/61), ("b", 1/61)] := by
    simp [reciprocalRankFusion, rrfAccum, dictAdd, sortByDesc,
      List.insertionSort, List.orderedInsert]
    norm_num
  refine ⟨h, ?_⟩
  rw [h]
  intro hpair
  rcases List.pairwise_cons.1 hpair with ⟨hlt, -⟩
  exact absurd (hlt ("b", 1/61) (by simp)) (lt_irrefl _)

/-- C7: `adaptive_fusion` with `query_type = "unknown"` returns exactly
`weighted_combination` with weights `(0.30, 0.70)`, and any
unrecognized query type falls back to the same weights. -/
theorem adaptiveFusion_unknown_eq_weighted (B V : List Result) :
    adaptiveFusion B V "unknown" = weightedCombination B V (3/10) (7/10)
      ∧ ∀ q : String,
          q ∉ (["policy", "procedure", "reference", "unknown"] : List String) →
            adaptiveFusion B V q = weightedCombination B V (3/10) (7/10) := by
  constructor
  · rfl
  · intro q hq
    simp only [List.mem_cons, List.mem_singleton, not_or] at hq
    obtain ⟨h1, h2, h3, h4, -⟩ := hq
    simp [adaptiveFusion, adaptiveWeights, h1, h2, h3, h4]

/-- C7 witness: the fallback branch at the unrecognized query type
`"definitely-unknown"` (also used by the repository's tests). -/
theorem adaptiveFusion_unknown_eq_weighted_witness :
    ("definitely-unknown"
        ∉ (["policy", "procedure", "reference", "unknown"] : List String))
      ∧ adaptiveFusion [("a", 2)] [("b", 1)] "definitely-unknown"
          = weightedCombination [("a", 2)] [("b", 1)] (3/10) (7/10) :=
  ⟨by decide,
    (adaptiveFusion_unknown_eq_weighted [("a", 2)] [("b", 1)]).2
      "definitely-unknown" (by decide)⟩

end AssistSupport.ScoreFusion

namespace AssistSupport.FeedbackLoop

def MIN_FEEDBACK : ℕ := 3

def MAX_WEIGHT : ℚ := 3/10

def WEIGHT_PER_FEEDBACK : ℚ := 1/50

/-- The per-article body of `compute_quality_scores` in
`feedback_loop.py`, given the aggregated counts of `helpful`,
`not_helpful` and `incorrect` feedback entries.  `none` models the
`continue` branch (fewer than `MIN_FEEDBACK` entries — the article's
stored quality score is left unchanged); `some q` models the
`UPDATE kb_articles SET quality_score = q` write. -/
def quality_update (helpful notHelpful incorrect : ℕ) : Option ℚ :=
  let total : ℕ := helpful + notHelpful + incorrect
  if total < MIN_FEEDBACK then none
  else
    let scoreSum : ℚ :=
      (helpful : ℚ) * 1 + (notHelpful : ℚ) * 0 + (incorrect : ℚ) * (-(1/2))
    let helpfulRatio := max 0 (scoreSum / (total : ℚ))
    let weight := min MAX_WEIGHT ((total : ℚ) * WEIGHT_PER_FEEDBACK)
    let qualityScore := 1 + (helpfulRatio - 1/2) * weight
    some (max (1/2) (min (3/2) qualityScore))

/-- C2: with counts `h, n, i` and `T = h + n + i ≥ 3` the Feedback
Aggregator writes
`clamp(1 + (max 0 ((1·h + 0·n − 0.5·i)/T) − 0.5) · min(0.3, T·0.02), 0.5, 1.5)`;
with `T < 3` the article is left unchanged (`none`); five `helpful`
entries and nothing else yield `1.05 = 21/20`. -/
theorem quality_update_spec :
    (∀ helpful notHelpful incorrect : ℕ,
        quality_update helpful notHelpful incorrect =
          if helpful + notHelpful + incorrect < 3 then none
          else
            some (max (1/2) (min (3/2)
              (1 + (max 0 ((1 * (helpful : ℚ) + 0 * (notHelpful : ℚ)
                      + (-(1/2)) * (incorrect : ℚ))
                    / ((helpful + notHelpful + incorrect : ℕ) : ℚ)) - 1/2)
                * min (3/10) (((helpful + notHelpful + incorrect : ℕ) : ℚ) * (2/100))))))
      ∧ quality_update 5 0 0 = some (21/20) := by
  constructor
  · intro helpful notHelpful incorrect
    rw [quality_update]
    simp only [MIN_FEEDBACK, MAX_WEIGHT, WEIGHT_PER_FEEDBACK]
    split
    · rfl
    · norm_num
      ring_nf
  · rw [quality_update]
    norm_num [MIN_FEEDBACK, MAX_WEIGHT, WEIGHT_PER_FEEDBACK]

end AssistSupport.FeedbackLoop

namespace AssistSupport.IntentDetection

/-- `proba.argmax()`: the index of the first occurrence of the maximum
class probability (numpy's argmax contract). -/
def argmaxIdx (l : List ℚ) : ℕ := l.findIdx (fun x => x == listMax l)

/-- Python's `round(q, 2)`: round to two decimal places, ties to even.
(The tie case never arises in the theorems below, so the binary-float
fuzz of CPython's `round` on exact ties is immaterial.) -/
def pythonRound2 (q : ℚ) : ℚ :=
  let x := 100 * q
  let f : ℤ := ⌊x⌋
  let r := x - (f : ℚ)
  let n : ℤ :=
    if r < 1/2 then f
    else if 1/2 < r then f + 1
    else if f % 2 = 0 then f else f + 1
  (n : ℚ) / 100

/-- `IntentDetector._detect_ml` from `intent_detection.py`: the primary
(model) classification path, taking the model's class-probability row
`proba` and class-label array `classes` as inputs.  The source rounds
the returned confidence with `round(confidence, 2)`. -/
def detect_ml (proba : List ℚ) (classes : List String) : String × ℚ :=
  let bestIdx := argmaxIdx proba
  let intent := classes.getD bestIdx ""
  let confidence := proba.getD bestIdx 0
  if confidence < 2/5 then ("unknown", pythonRound2 (1 - listMax proba))
  else (intent, pythonRound2 confidence)

theorem foldl_max_mem : ∀ (l : List ℚ) (a : ℚ), l.foldl max a = a ∨ l.foldl max a ∈ l
  | [], _ => Or.inl rfl
  | b :: rest, a => by
      rcases foldl_max_mem rest (max a b) with h | h
      · rcases max_choice a b with hm | hm
        · exact Or.inl (by rw [List.foldl_cons, h, hm])
        · exact Or.inr (by rw [List.foldl_cons, h, hm]; exact List.mem_cons_self _ _)
      · exact Or.inr (List.mem_cons_of_mem _ h)

theorem listMax_mem (l : List ℚ) (h : l ≠ []) : listMax l ∈ l := by
  cases l with
  | nil => exact absurd rfl h
  | cons x rest =>
      rcases foldl_max_mem rest x with h1 | h1
      · exact List.mem_cons.2 (Or.inl (by simpa [listMax] using h1))
      · exact List.mem_cons.2 (Or.inr (by simpa [listMax] using h1))

theorem getD_findIdx_beq :
    ∀ (l : List ℚ) (m : ℚ), m ∈ l → l.getD (l.findIdx (fun x => x == m)) 0 = m
  | [], m, hm => by cases hm
  | x :: rest, m, hm => by
      by_cases hx : x = m
      · subst hx
        simp [List.findIdx_cons]
      · rcases List.mem_cons.1 hm with hm' | hm'
        · exact absurd hm'.symm hx
        · have hbeq : (x == m) = false := beq_false_of_ne hx
          simp only [List.findIdx_cons, hbeq, cond_false]
          simpa using getD_findIdx_beq rest m hm'

theorem getD_argmaxIdx (proba : List ℚ) (h : proba ≠ []) :
    proba.getD (argmaxIdx proba) 0 = listMax proba :=
  getD_findIdx_beq proba (listMax proba) (listMax_mem proba h)

/-- C9 (amended): on the model path, when `max(p) < 0.4` the label is
`unknown` with confidence `round(1 − max(p), 2)`; otherwise the label
is the class at the argmax of `p` with confidence `round(max(p), 2)`. -/
theorem detect_ml_spec (proba : List ℚ) (classes : List String)
    (hne : proba ≠ []) :
    (listMax proba < 2/5 →
        detect_ml proba classes = ("unknown", pythonRound2 (1 - listMax proba)))
      ∧ (¬ listMax proba < 2/5 →
        detect_ml proba classes
          = (classes.getD (argmaxIdx proba) "", pythonRound2 (listMax proba))) := by
  have hconf : proba.getD (argmaxIdx proba) 0 = listMax proba :=
    getD_argmaxIdx proba hne
  constructor
  · intro h
    simp only [detect_ml]
    rw [hconf, if_pos h]
  · intro h
    simp only [detect_ml]
    rw [hconf, if_neg h]

/-- C9 witness: at `p = [1/2, 1/4]`, `max(p) = 1/2 ≥ 0.4`, so the
label is the argmax class and the confidence is `round(1/2, 2)`. -/
theorem detect_ml_spec_witness :
    (([(1:ℚ)/2, 1/4] : List ℚ) ≠ [])
      ∧ ((listMax [(1:ℚ)/2, 1/4] < 2/5 →
            detect_ml [(1:ℚ)/2, 1/4] ["policy", "procedure"]
              = ("unknown", pythonRound2 (1 - listMax [(1:ℚ)/2, 1/4])))
          ∧ (¬ listMax [(1:ℚ)/2, 1/4] < 2/5 →
            detect_ml [(1:ℚ)/2, 1/4] ["policy", "procedure"]
              = (["policy", "procedure"].getD (argmaxIdx [(1:ℚ)/2, 1/4]) "",
                  pythonRound2 (listMax [(1:ℚ)/2, 1/4])))) :=
  ⟨by simp, detect_ml_spec [(1:ℚ)/2, 1/4] ["policy", "procedure"] (by simp)⟩

/-- C9 counterexample to the claim as stated: at `p = [0.877, 0.123]`
the source returns confidence `round(0.877, 2) = 0.88 = 22/25`, which
is not equal to `max(p) = 0.877`. -/
theorem detect_ml_rounding_counterexample :
    detect_ml [877/1000, 123/1000] ["policy", "procedure"] = ("policy", 22/25)
      ∧ ((22:ℚ)/25) ≠ 877/1000 := by
  constructor
  · have hmax : listMax [(877:ℚ)/1000, 123/1000] = 877/1000 := by
      simp [listMax]
      norm_num
    have hidx : argmaxIdx [(877:ℚ)/1000, 123/1000] = 0 := by
      simp [argmaxIdx, hmax, List.findIdx_cons]
    have hround : pythonRound2 ((877:ℚ)/1000) = 22/25 := by
      simp only [pythonRound2]
      norm_num
    simp only [detect_ml, hidx]
    norm_num [hround]
  · norm_num

end AssistSupport.IntentDetection

namespace AssistSupport.HybridSearch

open AssistSupport.ScoreFusion

/-- The article-store lookups used by `HybridSearchEngine`
(`SELECT ... FROM kb_articles WHERE id IN (...)`).  A `none` result of
`categoryOf` models a missing row or a SQL-NULL category (both compare
unequal to every target category in the source).  `docOf` returns the
`(source_document_id, chunk_index)` pair of an existing row, with a
`none` first component for a SQL-NULL `source_document_id`.
`qualityCell` returns the `quality_score` column of an existing row
(`none` inner value: SQL NULL). -/
structure Store where
  categoryOf : String → Option String
  docOf : String → Option (Option String × ℕ)
  qualityCell : String → Option (Option ℚ)

/-- The `intent_to_category` map of `_apply_category_boost`. -/
def intentToCategory (intent : String) : Option String :=
  if intent = "policy" then some "POLICY"
  else if intent = "procedure" then some "PROCEDURE"
  else if intent = "reference" then some "REFERENCE"
  else none

/-- `HybridSearchEngine._apply_category_boost`: fetch the categories of
the top-30 candidate ids, multiply matching candidates' scores by 1.20,
and resort descending. -/
def apply_category_boost (store : Store) (fused : List Result)
    (intent : String) : List Result :=
  let articleIds := (fused.take 30).map Prod.fst
  if articleIds = [] then fused
  else
    match intentToCategory intent with
    | none => fused
    | some target =>
        let categoryMap : String → Option String := fun id =>
          if id ∈ articleIds then store.categoryOf id else none
        let boosted := fused.map fun p =>
          if (categoryMap p.1).getD "" = target then (p.1, p.2 * (6/5)) else p
        sortByDesc Prod.snd boosted

/-- `float(row[1] or 1.0)` applied to the `quality_score` cell. -/
def qualityValue (cell : Option ℚ) : ℚ :=
  match cell with
  | none => 1
  | some q => if q = 0 then 1 else q

/-- `get_quality_scores` from `feedback_loop.py`: the dict of quality
scores for the requested ids that exist in the store. -/
def get_quality_scores (store : Store) (ids : List String) :
    String → Option ℚ :=
  fun id => if id ∈ ids then (store.qualityCell id).map qualityValue else none

/-- `HybridSearchEngine._apply_quality_scores`: multiply each fusion
score by the article's quality score (`q_scores.get(article_id, 1.0)`,
queried for the top-30 ids), and resort descending. -/
def apply_quality_scores (store : Store) (fused : List Result) : List Result :=
  let articleIds := (fused.take 30).map Prod.fst
  if articleIds = [] then fused
  else
    let qScores := get_quality_scores store articleIds
    let adjusted := fused.map fun p => (p.1, p.2 * ((qScores p.1).getD 1))
    sortByDesc Prod.snd adjusted

/-- The effective source-document key of a candidate: `none` when the
article row is missing or its `source_document_id` is NULL (both kept
unconditionally by the walk). -/
def docIdOf (store : Store) (id : String) : Option String :=
  match store.docOf id with
  | some (d, _) => d
  | none => none

/-- The walk of `_deduplicate_results`: keep an item when its document
key is `none`, or when its document key has not been seen; record
non-null keys of kept items. -/
def dedupWalk (store : Store) : List Result → List String → List Result
  | [], _ => []
  | p :: rest, seen =>
      match docIdOf store p.1 with
      | none => p :: dedupWalk store rest seen
      | some d =>
          if d ∈ seen then dedupWalk store rest seen
          else p :: dedupWalk store rest (d :: seen)

/-- `HybridSearchEngine._deduplicate_results`. -/
def deduplicate_results (store : Store) (fused : List Result) : List Result :=
  if fused = [] then fused else dedupWalk store fused []

/-- Step 5 of `HybridSearchEngine.search`: the category boost is
applied exactly when `intent in ("policy", "procedure", "reference")`
and `intent_conf >= 0.3`. -/
def boost_stage (store : Store) (intent : String) (conf : ℚ)
    (fused : List Result) : List Result :=
  if intent ∈ (["policy", "procedure", "reference"] : List String) ∧ 3/10 ≤ conf
  then apply_category_boost store fused intent
  else fused

/-- Steps 5–6 of `HybridSearchEngine.search`: category boost (step 5),
then quality multiplier (step 5.5), then optional deduplication
(step 6). -/
def post_adjust (store : Store) (intent : String) (conf : ℚ)
    (useDedup : Bool) (fused : List Result) : List Result :=
  let f1 := boost_stage store intent conf fused
  let f2 := apply_quality_scores store f1
  if useDedup then deduplicate_results store f2 else f2

/-- `HybridSearchEngine._bm25_search`: the `try/except` around the FTS
query, modelled over the store call's outcome; an error is swallowed
and yields `[]`. -/
def bm25_search (outcome : Except String (List Result)) : List Result :=
  match outcome with
  | .ok rows => rows
  | .error _ => []

/-- `HybridSearchEngine._vector_search`: returns `[]` when vector
search is disabled, and swallows store errors to `[]` (also disabling
vector search for later requests, which does not change this
request's result). -/
def vector_search (enabled : Bool) (outcome : Except String (List Result)) :
    List Result :=
  if enabled = false then []
  else
    match outcome with
    | .ok rows => rows
    | .error _ => []

/-- Step 4 of `HybridSearchEngine.search`: fusion-strategy dispatch
(`rrf` / `weighted` / anything else → adaptive). -/
def fuse (strategy intent : String) (bm25Results vectorResults : List Result) :
    List Result :=
  if strategy = "rrf" then reciprocalRankFusion bm25Results vectorResults 60
  else if strategy = "weighted" then
    weightedCombination bm25Results vectorResults (3/10) (3/5)
  else adaptiveFusion bm25Results vectorResults intent

/-- Steps 3–6 of `HybridSearchEngine.search`, from the two store-call
outcomes to the adjusted, deduplicated candidate list. -/
def search_results (store : Store) (strategy intent : String) (conf : ℚ)
    (useDedup vectorEnabled : Bool)
    (bm25Outcome vectorOutcome : Except String (List Result)) : List Result :=
  post_adjust store intent conf useDedup
    (fuse strategy intent (bm25_search bm25Outcome)
      (vector_search vectorEnabled vectorOutcome))

end AssistSupport.HybridSearch

namespace AssistSupport.HybridSearch

theorem sortByDesc_nil {α : Type} (f : α → ℚ) : sortByDesc f ([] : List α) = [] :=
  rfl

theorem dedupWalk_sublist (store : Store) :
    ∀ (l : List Result) (seen : List String),
      (dedupWalk store l seen).Sublist l
  | [], _ => List.Sublist.refl []
  | p :: rest, seen => by
      rw [dedupWalk]
      cases hdoc : docIdOf store p.1 with
      | none => exact (dedupWalk_sublist store rest seen).cons₂ p
      | some d =>
          by_cases hseen : d ∈ seen
          · simp only [hseen, if_true]
            exact (dedupWalk_sublist store rest seen).cons p
          · simp only [hseen, if_false]
            exact (dedupWalk_sublist store rest (d :: seen)).cons₂ p

theorem dedupWalk_countP_none (store : Store) :
    ∀ (l : List Result) (seen : List String),
      (dedupWalk store l seen).countP (fun p => decide (docIdOf store p.1 = none))
        = l.countP (fun p => decide (docIdOf store p.1 = none))
  | [], _ => rfl
  | p :: rest, seen => by
      rw [dedupWalk]
      cases hdoc : docIdOf store p.1 with
      | none =>
          simp [List.countP_cons, hdoc,
            dedupWalk_countP_none store rest seen]
      | some d =>
          by_cases hseen : d ∈ seen
          · simp [hseen, List.countP_cons, hdoc,
              dedupWalk_countP_none store rest seen]
          · simp [hseen, List.countP_cons, hdoc,
              dedupWalk_countP_none store rest (d :: seen)]

theorem dedupWalk_keeps_first (store : Store) :
    ∀ (l : List Result) (seen : List String) (d : String) (p : Result),
      d ∉ seen →
      l.find? (fun q => decide (docIdOf store q.1 = some d)) = some p →
      p ∈ dedupWalk store l seen
  | [], _, _, _, _, hfind => by simp [List.find?] at hfind
  | q :: rest, seen, d, p, hseen, hfind => by
      rw [dedupWalk]
      by_cases hq : docIdOf store q.1 = some d
      · rw [List.find?_cons_of_pos _ (by simp [hq])] at hfind
        injection hfind with hfind
        subst hfind
        rw [hq]
        simp [hseen]
      · rw [List.find?_cons_of_neg _ (by simp [hq])] at hfind
        cases hdoc' : docIdOf store q.1 with
        | none =>
            show p ∈ q :: dedupWalk store rest seen
            exact List.mem_cons_of_mem q
              (dedupWalk_keeps_first store rest seen d p hseen hfind)
        | some d' =>
            show p ∈ if d' ∈ seen then dedupWalk store rest seen
              else q :: dedupWalk store rest (d' :: seen)
            by_cases hs : d' ∈ seen
            · simp only [hs, if_true]
              exact dedupWalk_keeps_first store rest seen d p hseen hfind
            · simp only [hs, if_false]
              have hd : d ∉ d' :: seen := by
                intro hmem
                rcases List.mem_cons.1 hmem with h1 | h1
                · exact hq (h1 ▸ hdoc')
                · exact hseen h1
              exact List.mem_cons_of_mem q
                (dedupWalk_keeps_first store rest (d' :: seen) d p hd hfind)

theorem dedupWalk_countP_seen (store : Store) :
    ∀ (l : List Result) (seen : List String) (d : String), d ∈ seen →
      (dedupWalk store l seen).countP (fun p => decide (docIdOf store p.1 = some d)) = 0
  | [], _, _, _ => rfl
  | p :: rest, seen, d, hseen => by
      rw [dedupWalk]
      cases hdoc : docIdOf store p.1 with
      | none =>
          simp [List.countP_cons, hdoc,
            dedupWalk_countP_seen store rest seen d hseen]
      | some d' =>
          by_cases hs : d' ∈ seen
          · simp [hs, dedupWalk_countP_seen store rest seen d hseen]
          · have hne : d' ≠ d := fun h => hs (h ▸ hseen)
            simp [hs, List.countP_cons, hdoc, hne,
              dedupWalk_countP_seen store rest (d' :: seen) d
                (List.mem_cons_of_mem _ hseen)]

theorem dedupWalk_countP_le_one (store : Store) :
    ∀ (l : List Result) (seen : List String) (d : String),
      (dedupWalk store l seen).countP (fun p => decide (docIdOf store p.1 = some d)) ≤ 1
  | [], _, _ => Nat.zero_le 1
  | p :: rest, seen, d => by
      rw [dedupWalk]
      cases hdoc : docIdOf store p.1 with
      | none =>
          simpa [List.countP_cons, hdoc] using
            dedupWalk_countP_le_one store rest seen d
      | some d' =>
          by_cases hs : d' ∈ seen
          · simpa [hs] using dedupWalk_countP_le_one store rest seen d
          · by_cases hd : d' = d
            · subst hd
              simp [hs, List.countP_cons, hdoc,
                dedupWalk_countP_seen store rest (d' :: seen) d'
                  (List.mem_cons_self _ _)]
            · simpa [hs, List.countP_cons, hdoc, hd] using
                dedupWalk_countP_le_one store rest (d' :: seen) d

/-- C5: the deduplicator returns a sublist of its input (kept items in
input order, removed items dropped entirely), keeps every candidate
whose source-document key is null (missing row or NULL column) with
multiplicity, keeps the first occurrence of each non-null
source_document_id, and each non-null source_document_id appears at
most once in the output. -/
theorem deduplicate_results_spec (store : Store) (fused : List Result) :
    (deduplicate_results store fused).Sublist fused
      ∧ (deduplicate_results store fused).countP
            (fun p => decide (docIdOf store p.1 = none))
          = fused.countP (fun p => decide (docIdOf store p.1 = none))
      ∧ (∀ (d : String) (p : Result),
          fused.find? (fun q => decide (docIdOf store q.1 = some d)) = some p →
          p ∈ deduplicate_results store fused)
      ∧ (∀ d : String,
          (deduplicate_results store fused).countP
            (fun p => decide (docIdOf store p.1 = some d)) ≤ 1) := by
  rw [deduplicate_results]
  by_cases hf : fused = []
  · subst hf
    refine ⟨List.Sublist.refl _, rfl, ?_, ?_⟩
    · intro d p hfind
      simp [List.find?] at hfind
    · intro d
      simp
  · rw [if_neg hf]
    exact ⟨dedupWalk_sublist store fused [],
      dedupWalk_countP_none store fused [],
      fun d p hfind =>
        dedupWalk_keeps_first store fused [] d p (by simp) hfind,
      fun d => dedupWalk_countP_le_one store fused [] d⟩

/-- C8: a failing store call in either retriever is swallowed into an
empty result list (the `try/except` never lets the error escape the
retrieval call), a disabled vector retriever returns `[]`, and the
coordinator's result on a failing retriever equals its result with
that side empty — the request is still served from the other path. -/
theorem retriever_error_handling (store : Store) (strategy intent : String)
    (conf : ℚ) (useDedup vectorEnabled : Bool) :
    (∀ e, bm25_search (Except.error e) = [])
      ∧ (∀ e, vector_search vectorEnabled (Except.error e) = [])
      ∧ (∀ outcome, vector_search false outcome = [])
      ∧ (∀ e vectorOutcome,
          search_results store strategy intent conf useDedup vectorEnabled
              (Except.error e) vectorOutcome
            = search_results store strategy intent conf useDedup vectorEnabled
              (Except.ok []) vectorOutcome)
      ∧ (∀ e bm25Outcome,
          search_results store strategy intent conf useDedup vectorEnabled
              bm25Outcome (Except.error e)
            = search_results store strategy intent conf useDedup vectorEnabled
              bm25Outcome (Except.ok [])) := by
  refine ⟨fun e => rfl, ?_, fun outcome => rfl, ?_, ?_⟩
  · intro e
    cases vectorEnabled <;> rfl
  · intro e vectorOutcome
    rfl
  · intro e bm25Outcome
    cases vectorEnabled <;> rfl

end AssistSupport.HybridSearch

namespace AssistSupport.HybridSearch

theorem take30_map_ne_nil {fused : List Result} (hf : fused ≠ []) :
    (fused.take 30).map Prod.fst ≠ [] := by
  simp [List.map_eq_nil, List.take_eq_nil_iff, hf]

theorem intentToCategory_ne_empty {intent target : String}
    (ht : intentToCategory intent = some target) : target ≠ "" := by
  intro hempty
  subst hempty
  rw [intentToCategory] at ht
  split_ifs at ht <;> simp_all

/-- Shape of `_apply_category_boost`: either the input unchanged (empty
input, or unmapped intent) or a descending resort of a per-item map
that multiplies some scores by 1.20 and leaves the rest alone. -/
theorem apply_category_boost_shape (store : Store) (fused : List Result)
    (intent : String) :
    apply_category_boost store fused intent = fused
      ∨ ∃ f : Result → Result,
          (∀ p, f p = p ∨ f p = (p.1, p.2 * (6/5)))
            ∧ apply_category_boost store fused intent
              = sortByDesc Prod.snd (fused.map f) := by
  rw [apply_category_boost]
  by_cases hids : (fused.take 30).map Prod.fst = []
  · rw [if_pos hids]
    exact Or.inl rfl
  · rw [if_neg hids]
    cases ht : intentToCategory intent with
    | none => exact Or.inl rfl
    | some target =>
        refine Or.inr ⟨_, ?_, rfl⟩
        intro p
        by_cases hc : ((if p.1 ∈ (fused.take 30).map Prod.fst
            then store.categoryOf p.1 else none).getD "" = target)
        · exact Or.inr (by rw [if_pos hc])
        · exact Or.inl (by rw [if_neg hc])

/-- Shape of `_apply_quality_scores`: the input unchanged when empty,
otherwise a descending resort of the per-item quality multiplication. -/
theorem apply_quality_scores_shape (store : Store) (fused : List Result) :
    (fused = [] ∧ apply_quality_scores store fused = fused)
      ∨ apply_quality_scores store fused
          = sortByDesc Prod.snd (fused.map fun p =>
              (p.1, p.2 * ((get_quality_scores store
                ((fused.take 30).map Prod.fst) p.1).getD 1))) := by
  rw [apply_quality_scores]
  by_cases hids : (fused.take 30).map Prod.fst = []
  · rw [if_pos hids]
    refine Or.inl ⟨?_, rfl⟩
    simpa [List.map_eq_nil, List.take_eq_nil_iff] using hids
  · rw [if_neg hids]
    exact Or.inr rfl

theorem map_fst_sortByDesc_map (f : Result → Result)
    (hf : ∀ p, (f p).1 = p.1) (l : List Result) :
    List.Perm ((sortByDesc Prod.snd (l.map f)).map Prod.fst) (l.map Prod.fst) := by
  have h2 := (sortByDesc_perm Prod.snd (l.map f)).map Prod.fst
  rw [List.map_map] at h2
  have h3 : l.map (Prod.fst ∘ f) = l.map Prod.fst := by
    apply List.map_congr_left
    intro p _
    exact hf p
  rwa [h3] at h2

/-- C10: both post-adjustment passes permute exactly the input's
article ids (no candidate added or removed, with multiplicity), and
each output candidate carries the score of an input candidate with the
same id, either unchanged or multiplied by its boost (1.20) or quality
factor. -/
theorem post_adjustment_frame (store : Store) (fused : List Result)
    (intent : String) :
    List.Perm ((apply_category_boost store fused intent).map Prod.fst)
        (fused.map Prod.fst)
      ∧ (∀ p ∈ apply_category_boost store fused intent,
          ∃ s, (p.1, s) ∈ fused ∧ (p.2 = s ∨ p.2 = s * (6/5)))
      ∧ List.Perm ((apply_quality_scores store fused).map Prod.fst)
          (fused.map Prod.fst)
      ∧ (∀ p ∈ apply_quality_scores store fused,
          ∃ s, (p.1, s) ∈ fused
            ∧ p.2 = s * ((get_quality_scores store
                ((fused.take 30).map Prod.fst) p.1).getD 1)) := by
  refine ⟨?_, ?_, ?_, ?_⟩
  · rcases apply_category_boost_shape store fused intent with h | ⟨f, hf, h⟩
    · rw [h]
    · rw [h]
      exact map_fst_sortByDesc_map f
        (fun p => by rcases hf p with h' | h' <;> simp [h']) fused
  · intro p hp
    rcases apply_category_boost_shape store fused intent with h | ⟨f, hf, h⟩
    · rw [h] at hp
      exact ⟨p.2, by simpa using hp, Or.inl rfl⟩
    · rw [h] at hp
      have hp' := (sortByDesc_perm Prod.snd (fused.map f)).mem_iff.1 hp
      rcases List.mem_map.1 hp' with ⟨q, hq, hfq⟩
      rcases hf q with h' | h'
      · rw [h'] at hfq
        subst hfq
        exact ⟨q.2, by simpa using hq, Or.inl rfl⟩
      · rw [h'] at hfq
        subst hfq
        exact ⟨q.2, by simpa using hq, Or.inr rfl⟩
  · rcases apply_quality_scores_shape store fused with ⟨-, h⟩ | h
    · rw [h]
    · rw [h]
      exact map_fst_sortByDesc_map
        (fun p => (p.1, p.2 * ((get_quality_scores store
          ((fused.take 30).map Prod.fst) p.1).getD 1)))
        (fun p => rfl) fused
  · intro p hp
    rcases apply_quality_scores_shape store fused with ⟨hnil, h⟩ | h
    · rw [h, hnil] at hp
      cases hp
    · rw [h] at hp
      have hp' := (sortByDesc_perm Prod.snd _).mem_iff.1 hp
      rcases List.mem_map.1 hp' with ⟨q, hq, hfq⟩
      subst hfq
      exact ⟨q.2, by simpa using hq, rfl⟩

end AssistSupport.HybridSearch

namespace AssistSupport.HybridSearch

theorem category_boost_charact (store : Store) (fused : List Result)
    (intent target : String) (ht : intentToCategory intent = some target) :
    apply_category_boost store fused intent
      = sortByDesc Prod.snd (fused.map fun p =>
          if p.1 ∈ (fused.take 30).map Prod.fst
              ∧ store.categoryOf p.1 = some target
          then (p.1, p.2 * (6/5)) else p) := by
  have htarget : target ≠ "" := intentToCategory_ne_empty ht
  rw [apply_category_boost]
  by_cases hf : fused = []
  · subst hf
    simp [sortByDesc, List.insertionSort]
  · rw [if_neg (take30_map_ne_nil hf), ht]
    show sortByDesc Prod.snd (fused.map fun p =>
        if ((if p.1 ∈ (fused.take 30).map Prod.fst
            then store.categoryOf p.1 else none).getD "" = target)
        then (p.1, p.2 * (6/5)) else p)
      = sortByDesc Prod.snd (fused.map fun p =>
          if p.1 ∈ (fused.take 30).map Prod.fst
              ∧ store.categoryOf p.1 = some target
          then (p.1, p.2 * (6/5)) else p)
    congr 1
    apply List.map_congr_left
    intro p hp
    by_cases hmem : p.1 ∈ (fused.take 30).map Prod.fst
    · simp only [hmem, if_true, true_and]
      cases hcat : store.categoryOf p.1 with
      | none =>
          rw [if_neg, if_neg]
          · simp
          · simp
            exact fun h => htarget h.symm
      | some c =>
          simp only [Option.getD_some, Option.some.injEq]
    · rw [if_neg, if_neg]
      · exact fun hand => hmem hand.1
      · rw [if_neg hmem]
        exact fun h => htarget h.symm

/-- C3: in the coordinator pipeline, the category boost runs exactly
when the detected intent is one of policy/procedure/reference and the
intent confidence is ≥ 0.3, and it runs before the quality multiplier;
the boost itself multiplies by 1.20 the fusion score of exactly those
candidates among the top 30 whose stored category equals the category
the intent maps to (POLICY / PROCEDURE / REFERENCE via
`intentToCategory`), then resorts descending. -/
theorem category_boost_pipeline (store : Store) (intent : String) (conf : ℚ)
    (useDedup : Bool) (fused : List Result) :
    ((intent ∈ (["policy", "procedure", "reference"] : List String)
        ∧ 3/10 ≤ conf) →
      post_adjust store intent conf useDedup fused
        = (if useDedup then
            deduplicate_results store
              (apply_quality_scores store (apply_category_boost store fused intent))
          else
            apply_quality_scores store (apply_category_boost store fused intent)))
    ∧ (¬ (intent ∈ (["policy", "procedure", "reference"] : List String)
        ∧ 3/10 ≤ conf) →
      post_adjust store intent conf useDedup fused
        = (if useDedup then
            deduplicate_results store (apply_quality_scores store fused)
          else apply_quality_scores store fused))
    ∧ (∀ target, intentToCategory intent = some target →
        apply_category_boost store fused intent
          = sortByDesc Prod.snd (fused.map fun p =>
              if p.1 ∈ (fused.take 30).map Prod.fst
                  ∧ store.categoryOf p.1 = some target
              then (p.1, p.2 * (6/5)) else p)) := by
  refine ⟨?_, ?_, ?_⟩
  · intro h
    rw [post_adjust, boost_stage, if_pos h]
  · intro h
    rw [post_adjust, boost_stage, if_neg h]
  · intro target ht
    exact category_boost_charact store fused intent target ht

/-- C3 witness: a confident policy query over a one-candidate list and
a store mapping every id to category POLICY. -/
theorem category_boost_pipeline_witness :
    ("policy" ∈ (["policy", "procedure", "reference"] : List String)
        ∧ (3:ℚ)/10 ≤ 3/10)
      ∧ post_adjust
          ⟨fun _ => some "POLICY", fun _ => none, fun _ => none⟩
          "policy" (3/10) false [("x", 1)]
        = apply_quality_scores
            ⟨fun _ => some "POLICY", fun _ => none, fun _ => none⟩
            (apply_category_boost
              ⟨fun _ => some "POLICY", fun _ => none, fun _ => none⟩
              [("x", 1)] "policy") :=
  ⟨⟨by decide, le_refl _⟩,
    (category_boost_pipeline
        ⟨fun _ => some "POLICY", fun _ => none, fun _ => none⟩
        "policy" (3/10) false [("x", 1)]).1 ⟨by decide, le_refl _⟩⟩

end AssistSupport.HybridSearch

namespace AssistSupport.Reranker

open AssistSupport.ScoreFusion

/-- One materialized result row, as consumed by `Reranker.rerank`: the
article id stands for the full formatted dict; `fusionScore` is the
`fusion_score` field and `rerankScore` the optional `rerank_score`
field (absent until the reranker sets it). -/
structure Candidate where
  articleId : String
  fusionScore : ℚ
  rerankScore : Option ℚ
deriving DecidableEq, Repr, Inhabited

def RERANK_WEIGHT : ℚ := 3/20

def FUSION_WEIGHT : ℚ := 17/20

/-- `Reranker.rerank` from `reranker.py`, with the cross-encoder's raw
pair scores (`self.model.predict(pairs)`, one per candidate) supplied
as the oracle input `rawScores`.  Lists of length ≤ 1 are returned
unchanged (truncated to `top_k`); otherwise both raw scores and fusion
scores are min-max normalized (range-zero guard 1.0; the empty-list
guards on `fusion_scores` are unreachable here but kept from the
source), blended `RERANK_WEIGHT·ce_norm + FUSION_WEIGHT·fu_norm`, the
raw score is stored on the candidate, and the list is resorted
descending and truncated. -/
def rerank (rawScores : List ℚ) (candidates : List Candidate) (topK : ℕ) :
    List Candidate :=
  if candidates.length ≤ 1 then candidates.take topK
  else
    let minS := listMin rawScores
    let maxS := listMax rawScores
    let range := if maxS ≠ minS then maxS - minS else 1
    let normScores := rawScores.map fun s => (s - minS) / range
    let fusionScores := candidates.map Candidate.fusionScore
    let fMin := if fusionScores = [] then 0 else listMin fusionScores
    let fMax := if fusionScores = [] then 1 else listMax fusionScores
    let fRange := if fMax ≠ fMin then fMax - fMin else 1
    let normFusion := fusionScores.map fun s => (s - fMin) / fRange
    let blended := List.zipWith
      (fun (c : Candidate) (p : ℚ × ℚ × ℚ) =>
        { c with rerankScore := some p.2.2,
                 fusionScore := RERANK_WEIGHT * p.1 + FUSION_WEIGHT * p.2.1 })
      candidates (normScores.zip (normFusion.zip rawScores))
    (sortByDesc Candidate.fusionScore blended).take topK

/-- The rerank pool built in step 8 of `HybridSearchEngine.search`:
`_fetch_and_format_results(fused, ..., min(limit * 2, 20))`, i.e. the
top `min(2·top_k, 20)` fused candidates (assuming each id resolves in
the store). -/
def rerank_pool (fused : List Result) (topK : ℕ) : List Result :=
  fused.take (min (2 * topK) 20)

/-- `_fetch_and_format_results` viewed at the granularity the reranker
needs: each fused `(id, score)` pair becomes a result row carrying its
fusion score and no rerank score yet (assuming each id resolves). -/
def materialize (l : List Result) : List Candidate :=
  l.map fun p => ⟨p.1, p.2, none⟩

/-- Step 8 dispatch of `HybridSearchEngine.search`: the reranker runs
exactly when the fusion strategy is `rerank`, on the rerank pool;
otherwise the top `top_k` fused results are returned. -/
def search_final (strategy : String) (rawScores : List ℚ)
    (fused : List Result) (topK : ℕ) : List Candidate :=
  if strategy = "rerank"
  then rerank rawScores (materialize (rerank_pool fused topK)) topK
  else materialize (fused.take topK)

/-- Min-max normalization to [0, 1] with range-zero guard 1, as in the
spec's description of the rerank blend. -/
def minmaxNorm (l : List ℚ) : List ℚ :=
  let m := listMin l
  let M := listMax l
  let r := if M ≠ m then M - m else 1
  l.map fun s => (s - m) / r

end AssistSupport.Reranker

namespace AssistSupport.Reranker

/-- C6 (amended): when the fusion strategy is `rerank`, the reranker
runs on the pool of the top `min(2·top_k, 20)` fused candidates (fewer
when fewer exist); for a pool of at least two candidates, both raw
cross-encoder scores and existing fusion scores are min-max normalized
to [0, 1] with range-zero guard 1.0, each candidate's final
fusion_score is `0.85 · norm_fusion + 0.15 · norm_rerank`, the raw
rerank score is retained on the candidate, and the result is resorted
descending and truncated to `top_k`. -/
theorem rerank_spec (rawScores : List ℚ) (candidates : List Candidate)
    (topK : ℕ) (fused : List Result)
    (h2 : 2 ≤ candidates.length) (hlen : rawScores.length = candidates.length) :
    search_final "rerank" rawScores fused topK
        = rerank rawScores (materialize (fused.take (min (2 * topK) 20))) topK
      ∧ ∃ blended : List Candidate,
          rerank rawScores candidates topK
              = (sortByDesc Candidate.fusionScore blended).take topK
            ∧ blended.length = candidates.length
            ∧ ∀ i, i < candidates.length →
                (blended.getD i default).articleId
                    = (candidates.getD i default).articleId
                  ∧ (blended.getD i default).fusionScore
                      = 17/20 * ((minmaxNorm
                            (candidates.map Candidate.fusionScore)).getD i 0)
                        + 3/20 * ((minmaxNorm rawScores).getD i 0)
                  ∧ (blended.getD i default).rerankScore
                      = some (rawScores.getD i 0) := by
  constructor
  · rfl
  · have hns : ¬ candidates.length ≤ 1 := by omega
    have hne2 : candidates ≠ [] := by
      intro h
      rw [h] at h2
      exact absurd h2 (by decide)
    rw [rerank, if_neg hns]
    refine ⟨_, rfl, ?_, ?_⟩
    · simp [List.length_zipWith, List.length_zip, hlen]
    · intro i hi
      have hiR : i < rawScores.length := by rw [hlen]; exact hi
      have hiF : i < (candidates.map Candidate.fusionScore).length := by
        rw [List.length_map]; exact hi
      refine ⟨?_, ?_, ?_⟩ <;>
        simp [List.getElem?_zipWith, List.zip_eq_zipWith, minmaxNorm,
          List.getElem?_eq_getElem, hi, hiR, hiF, hne2,
          RERANK_WEIGHT, FUSION_WEIGHT] <;>
        ring

/-- C6 witness: the amended rerank statement at a two-candidate pool
with raw cross-encoder scores `[1, 3]`. -/
theorem rerank_spec_witness :
    ((2 ≤ ([⟨"a", (1:ℚ)/2, none⟩, ⟨"b", (1:ℚ)/4, none⟩] : List Candidate).length)
        ∧ ([(1:ℚ), 3].length
            = ([⟨"a", (1:ℚ)/2, none⟩, ⟨"b", (1:ℚ)/4, none⟩] : List Candidate).length))
      ∧ (search_final "rerank" [(1:ℚ), 3] [] 2
            = rerank [(1:ℚ), 3]
                (materialize (([] : List Result).take (min (2 * 2) 20))) 2
          ∧ ∃ blended : List Candidate,
              rerank [(1:ℚ), 3]
                  [⟨"a", (1:ℚ)/2, none⟩, ⟨"b", (1:ℚ)/4, none⟩] 2
                  = (sortByDesc Candidate.fusionScore blended).take 2
                ∧ blended.length
                    = ([⟨"a", (1:ℚ)/2, none⟩, ⟨"b", (1:ℚ)/4, none⟩] : List Candidate).length
                ∧ ∀ i, i < ([⟨"a", (1:ℚ)/2, none⟩, ⟨"b", (1:ℚ)/4, none⟩] : List Candidate).length →
                    (blended.getD i default).articleId
                        = (([⟨"a", (1:ℚ)/2, none⟩, ⟨"b", (1:ℚ)/4, none⟩] : List Candidate).getD i default).articleId
                      ∧ (blended.getD i default).fusionScore
                          = 17/20 * ((minmaxNorm
                                (([⟨"a", (1:ℚ)/2, none⟩, ⟨"b", (1:ℚ)/4, none⟩] : List Candidate).map Candidate.fusionScore)).getD i 0)
                            + 3/20 * ((minmaxNorm [(1:ℚ), 3]).getD i 0)
                      ∧ (blended.getD i default).rerankScore
                          = some ([(1:ℚ), 3].getD i 0)) :=
  ⟨⟨by decide, by decide⟩,
    rerank_spec [(1:ℚ), 3] [⟨"a", (1:ℚ)/2, none⟩, ⟨"b", (1:ℚ)/4, none⟩] 2 []
      (by decide) (by decide)⟩

/-- C6 counterexample to the claim as stated: on a one-candidate pool
the source returns the candidate unchanged — its fusion score stays
`4/5` although the claimed blend formula yields
`0.85·0 + 0.15·0 = 0`, and no raw rerank score is retained. -/
theorem rerank_singleton_counterexample :
    rerank [(7:ℚ)/2] [⟨"a", (4:ℚ)/5, none⟩] 10 = [⟨"a", (4:ℚ)/5, none⟩]
      ∧ (∀ c ∈ rerank [(7:ℚ)/2] [⟨"a", (4:ℚ)/5, none⟩] 10, c.rerankScore = none)
      ∧ ((4:ℚ)/5
          ≠ 17/20 * ((minmaxNorm
                (([⟨"a", (4:ℚ)/5, none⟩] : List Candidate).map Candidate.fusionScore)).getD 0 0)
            + 3/20 * ((minmaxNorm [(7:ℚ)/2]).getD 0 0)) := by
  have h : rerank [(7:ℚ)/2] [⟨"a", (4:ℚ)/5, none⟩] 10 = [⟨"a", (4:ℚ)/5, none⟩] := by
    rw [rerank, if_pos (by decide)]
    exact List.take_of_length_le (by decide)
  refine ⟨h, ?_, ?_⟩
  · rw [h]
    intro c hc
    rw [List.mem_singleton] at hc
    rw [hc]
  · simp [minmaxNorm, listMax, listMin]

end AssistSupport.Reranker

namespace AssistSupport.HybridSearch

/-- C5 witness: the deduplication properties instantiated at a
one-candidate list over a store with no document metadata. -/
theorem deduplicate_results_spec_witness :
    (deduplicate_results ⟨fun _ => none, fun _ => none, fun _ => none⟩
        [("x", (1:ℚ))]).Sublist [("x", (1:ℚ))]
      ∧ (deduplicate_results ⟨fun _ => none, fun _ => none, fun _ => none⟩
            [("x", (1:ℚ))]).countP
            (fun p => decide (docIdOf
              ⟨fun _ => none, fun _ => none, fun _ => none⟩ p.1 = none))
          = ([("x", (1:ℚ))] : List Result).countP
            (fun p => decide (docIdOf
              ⟨fun _ => none, fun _ => none, fun _ => none⟩ p.1 = none))
      ∧ (∀ (d : String) (p : Result),
          ([("x", (1:ℚ))] : List Result).find?
              (fun q => decide (docIdOf
                ⟨fun _ => none, fun _ => none, fun _ => none⟩ q.1 = some d))
            = some p →
          p ∈ deduplicate_results
            ⟨fun _ => none, fun _ => none, fun _ => none⟩ [("x", (1:ℚ))])
      ∧ (∀ d : String,
          (deduplicate_results ⟨fun _ => none, fun _ => none, fun _ => none⟩
              [("x", (1:ℚ))]).countP
            (fun p => decide (docIdOf
              ⟨fun _ => none, fun _ => none, fun _ => none⟩ p.1 = some d)) ≤ 1) :=
  deduplicate_results_spec ⟨fun _ => none, fun _ => none, fun _ => none⟩
    [("x", (1:ℚ))]

/-- C10 witness: the frame properties instantiated at a one-candidate
list and a trivial store. -/
theorem post_adjustment_frame_witness :
    List.Perm ((apply_category_boost
          ⟨fun _ => none, fun _ => none, fun _ => none⟩
          [("x", (1:ℚ))] "policy").map Prod.fst)
        (([("x", (1:ℚ))] : List Result).map Prod.fst)
      ∧ (∀ p ∈ apply_category_boost
            ⟨fun _ => none, fun _ => none, fun _ => none⟩
            [("x", (1:ℚ))] "policy",
          ∃ s, (p.1, s) ∈ ([("x", (1:ℚ))] : List Result)
            ∧ (p.2 = s ∨ p.2 = s * (6/5)))
      ∧ List.Perm ((apply_quality_scores
            ⟨fun _ => none, fun _ => none, fun _ => none⟩
            [("x", (1:ℚ))]).map Prod.fst)
          (([("x", (1:ℚ))] : List Result).map Prod.fst)
      ∧ (∀ p ∈ apply_quality_scores
            ⟨fun _ => none, fun _ => none, fun _ => none⟩ [("x", (1:ℚ))],
          ∃ s, (p.1, s) ∈ ([("x", (1:ℚ))] : List Result)
            ∧ p.2 = s * ((get_quality_scores
                ⟨fun _ => none, fun _ => none, fun _ => none⟩
                ((([("x", (1:ℚ))] : List Result).take 30).map Prod.fst) p.1).getD 1)) :=
  post_adjustment_frame ⟨fun _ => none, fun _ => none, fun _ => none⟩
    [("x", (1:ℚ))] "policy"

end AssistSupport.HybridSearch
